import Mathlib

/-!
Verification of the facial-identity-transfer pipeline (`src/main.py`).

The development shallowly embeds the program's core components:

* `match_histograms` (per-channel histogram matching with the resuming
  lookup-table scan of lines 93-98);
* `get_delaunay_triangles` (rectangle post-filter and tolerance-based
  index resolution of lines 45-71, with the external `cv2.Subdiv2D`
  triangle list taken as an input);
* `warp_triangles` (bounding-rectangle arithmetic and in-place masked
  blend of lines 22-43, with the external affine resampler and the
  rasterized mask taken as oracles);
* `process_video` (the frame loop of lines 125-157, with the external
  landmark detector and the per-frame rendering abstracted).

Pixel intensities are natural numbers, normalized CDF values are
rationals, and geometric coordinates are integers (landmark points are
produced by `int(...)` in the source) or rationals (the float32 vertex
coordinates returned by the triangulation routine).
-/

namespace FaceSwap

/-! ### Histogram matching (`match_histograms`, lines 73-106) -/

/-- Fuel-indexed form of the inner `while` loop of lines 96-97: advance
`g` while `r g < c` and `g < 255`.  The guard `g < 255` bounds the
number of iterations, so fuel `255 - g` is exact. -/
def scanGAux (r : ℕ → ℚ) (c : ℚ) : ℕ → ℕ → ℕ
  | 0, g => g
  | fuel + 1, g => if r g < c ∧ g < 255 then scanGAux r c fuel (g + 1) else g

/-- The inner `while` loop of lines 96-97: starting from level `g`,
advance while `r g < c` and `g < 255`.  `r` is the reference CDF and
`c` the source CDF value being matched. -/
def scanG (r : ℕ → ℚ) (c : ℚ) (g : ℕ) : ℕ :=
  scanGAux r c (255 - g) g

/-- The lookup table of lines 93-98: entry `i` is the value of the
persistent cursor `g` after processing source level `i`; the scan for
level `i + 1` resumes from the cursor left by level `i`. -/
def lutAux (r s : ℕ → ℚ) : ℕ → ℕ
  | 0 => scanG r (s 0) 0
  | i + 1 => scanG r (s (i + 1)) (lutAux r s i)

/-- Histogram of a channel (`np.histogram(..., 256, [0, 256])` on uint8
data, line 85-86): bin `v` counts the pixels of value `v`. -/
def histOf (channel : List ℕ) (v : ℕ) : ℕ :=
  channel.countP (fun x => x = v)

/-- `np.sum(hist)` over the 256 bins (the denominator of lines 89-90). -/
def totalOf (h : ℕ → ℕ) : ℕ :=
  Finset.sum (Finset.range 256) h

/-- Normalized cumulative distribution function of a histogram
(`np.cumsum(hist) / np.sum(hist)`, lines 89-90). -/
def cdf (h : ℕ → ℕ) (i : ℕ) : ℚ :=
  ((Finset.sum (Finset.range (i + 1)) h : ℕ) : ℚ) / ((totalOf h : ℕ) : ℚ)

/-- Matching one channel (lines 83-102): build the lookup table from the
two channel histograms and remap every source pixel through it
(`cv2.LUT`, line 101). -/
def matchChannel (s_channel r_channel : List ℕ) : List ℕ :=
  s_channel.map (lutAux (cdf (histOf r_channel)) (cdf (histOf s_channel)))

/-- `match_histograms` (lines 73-106): split both images into channels,
match channel-wise (`zip`, line 83 — truncating like Python's `zip`),
and merge the matched channels. -/
def match_histograms (source reference : List (List ℕ)) : List (List ℕ) :=
  (source.zip reference).map (fun p => matchChannel p.1 p.2)

/-- Proof-side helper: the least level `g` at which the scan can stop
for threshold `c`, i.e. the least `g` with `c ≤ r g` or `g = 255`. -/
def goalG (r : ℕ → ℚ) (c : ℚ) : ℕ :=
  Nat.find (p := fun g => c ≤ r g ∨ g = 255) ⟨255, Or.inr rfl⟩

/-! ### Triangulation builder (`get_delaunay_triangles`, lines 45-71) -/

/-- The bounding region passed to `cv2.Subdiv2D` and used by the
post-filter: origin `(x, y)`, extent `(w, h)`. -/
structure RectQ where
  x : ℚ
  y : ℚ
  w : ℚ
  h : ℚ

/-- One entry of `subdiv.getTriangleList()`: six float32 vertex
coordinates `(x1, y1, x2, y2, x3, y3)` (lines 53-55). -/
structure TriRaw where
  x1 : ℚ
  y1 : ℚ
  x2 : ℚ
  y2 : ℚ
  x3 : ℚ
  y3 : ℚ

/-- The per-vertex test of lines 58-60: `p.x >= rect.x`, `p.y >= rect.y`,
`p.x < rect.x + rect.w`, `p.y < rect.y + rect.h`. -/
def ptInRect (rect : RectQ) (px py : ℚ) : Bool :=
  decide (rect.x ≤ px) && decide (rect.y ≤ py) &&
    decide (px < rect.x + rect.w) && decide (py < rect.y + rect.h)

/-- The `for k, point in enumerate(points)` loop of lines 64-67 with
running index `k`: stop at the first point within 1.0 of `(px, py)` in
both coordinates (the `break` of line 67). -/
def findMatch (px py : ℚ) : List (ℚ × ℚ) → ℕ → Option ℕ
  | [], _ => none
  | q :: qs, k =>
    if |px - q.1| < 1 ∧ |py - q.2| < 1 then some k
    else findMatch px py qs (k + 1)

/-- The inner search of lines 64-67: first index `k` whose point lies
within 1.0 of `p` in both coordinates. -/
def resolveIdx (points : List (ℚ × ℚ)) (px py : ℚ) : Option ℕ :=
  findMatch px py points 0

/-- The `ind` list of lines 62-67: the indices resolved for the three
vertices, keeping only the vertices that resolve (no `append` happens
when the inner loop finds no match). -/
def resolveTri (points : List (ℚ × ℚ)) (t : TriRaw) : List ℕ :=
  [(t.x1, t.y1), (t.x2, t.y2), (t.x3, t.y3)].filterMap
    (fun p => resolveIdx points p.1 p.2)

/-- `get_delaunay_triangles` (lines 45-71).  The triangulation itself is
an external `cv2.Subdiv2D` call, so the raw `triangle_list` it produces
is an input; the function filters candidates whose three vertices lie in
`rect` and whose `ind` list has length exactly 3 (line 68). -/
def get_delaunay_triangles (rect : RectQ) (points : List (ℚ × ℚ)) :
    List TriRaw → List (ℕ × ℕ × ℕ)
  | [] => []
  | t :: ts =>
    if ptInRect rect t.x1 t.y1 && ptInRect rect t.x2 t.y2 &&
        ptInRect rect t.x3 t.y3 then
      match resolveTri points t with
      | [a, b, c] => (a, b, c) :: get_delaunay_triangles rect points ts
      | _ => get_delaunay_triangles rect points ts
    else
      get_delaunay_triangles rect points ts

/-! ### Triangle compositor (`warp_triangles`, lines 22-43) -/

/-- A single channel of an image, indexed `img y x` like `numpy`'s
`img[y, x]`; pixel values as rationals (the blend of line 43 is float
arithmetic). -/
abbrev Img := ℤ → ℤ → ℚ

/-- An absolute-coordinate triangle of integer landmark points (the
landmarks are `int(...)`-rounded at detection, line 14). -/
abbrev TriZ := (ℤ × ℤ) × (ℤ × ℤ) × (ℤ × ℤ)

/-- An integer rectangle `(x, y, w, h)` as returned by
`cv2.boundingRect`. -/
structure RectZ where
  x : ℤ
  y : ℤ
  w : ℤ
  h : ℤ

/-- `cv2.boundingRect` on a 3-point integer polygon (lines 23-24):
origin at the coordinate-wise minimum, inclusive extent
(`max - min + 1`). -/
def boundingRect (t : TriZ) : RectZ :=
  { x := min t.1.1 (min t.2.1.1 t.2.2.1)
    y := min t.1.2 (min t.2.1.2 t.2.2.2)
    w := max t.1.1 (max t.2.1.1 t.2.2.1) - min t.1.1 (min t.2.1.1 t.2.2.1) + 1
    h := max t.1.2 (max t.2.1.2 t.2.2.2) - min t.1.2 (min t.2.1.2 t.2.2.2) + 1 }

/-- Membership of pixel `(y, x)` in the slice
`img[r.y : r.y + r.h, r.x : r.x + r.w]` of line 43. -/
def inRectZ (r : RectZ) (y x : ℤ) : Prop :=
  r.y ≤ y ∧ y < r.y + r.h ∧ r.x ≤ x ∧ x < r.x + r.w

instance (r : RectZ) (y x : ℤ) : Decidable (inRectZ r y x) := by
  unfold inRectZ; infer_instance

/-- The rectangle-local triangle of lines 29-33: each vertex translated
by the rectangle origin. -/
def localTri (t : TriZ) (r : RectZ) : List (ℤ × ℤ) :=
  [(t.1.1 - r.x, t.1.2 - r.y),
   (t.2.1.1 - r.x, t.2.1.2 - r.y),
   (t.2.2.1 - r.x, t.2.2.2 - r.y)]

/-- The source sub-image `img1[r.y : r.y + r.h, r.x : r.x + r.w]` of
line 35, in rectangle-local coordinates. -/
def subImg (img : Img) (r : RectZ) : Img :=
  fun y x => img (r.y + y) (r.x + x)

/-- `warp_triangles` (lines 22-43), returning the updated `img2`.
`affineWarp` stands for `apply_affine_transform` (lines 17-20, a pair of
`cv2.getAffineTransform` / `cv2.warpAffine` library calls) applied to
the extracted source rectangle, and `maskOf` for the
`cv2.fillConvexPoly` rasterization of lines 40-41 — both external,
taken as oracles mapping the same arguments the code passes.  The
`tri2_rect_int` of lines 32-33 coincides with `tri2_rect` because the
landmark coordinates are integers. -/
def warp_triangles
    (affineWarp : Img → List (ℤ × ℤ) → List (ℤ × ℤ) → ℤ × ℤ → Img)
    (maskOf : List (ℤ × ℤ) → ℤ × ℤ → Img)
    (img1 img2 : Img) (tri1 tri2 : TriZ) : Img :=
  let r1 := boundingRect tri1
  let r2 := boundingRect tri2
  let warped := affineWarp (subImg img1 r1) (localTri tri1 r1)
    (localTri tri2 r2) (r2.w, r2.h)
  let mask := maskOf (localTri tri2 r2) (r2.w, r2.h)
  let img2_rect : Img := fun y x => warped y x * mask y x
  fun y x =>
    if inRectZ r2 y x then
      img2 y x * (1 - mask (y - r2.y) (x - r2.x)) +
        img2_rect (y - r2.y) (x - r2.x)
    else
      img2 y x

/-! ### Per-frame triangle loop (`process_video`, lines 145-149) -/

/-- The index lookups of lines 147-148 (`lms[i₀], lms[i₁], lms[i₂]`);
out-of-range indices are given a default point, though the triples
produced by `get_delaunay_triangles` are always in range. -/
def lookupTri (lms : List (ℤ × ℤ)) (t : ℕ × ℕ × ℕ) : TriZ :=
  (lms.getD t.1 (0, 0), lms.getD t.2.1 (0, 0), lms.getD t.2.2 (0, 0))

/-- Twice the signed area of an integer triangle; a triangle is
degenerate exactly when this is 0. -/
def area2 (t : TriZ) : ℤ :=
  (t.2.1.1 - t.1.1) * (t.2.2.2 - t.1.2) - (t.2.2.1 - t.1.1) * (t.2.1.2 - t.1.2)

/-- The triangle loop of lines 145-149: start from a copy of the raw
frame and fold `warp_triangles` over every index triple of the static
triangulation, unconditionally. -/
def warpFrame
    (affineWarp : Img → List (ℤ × ℤ) → List (ℤ × ℤ) → ℤ × ℤ → Img)
    (maskOf : List (ℤ × ℤ) → ℤ × ℤ → Img)
    (staticImg : Img) (staticLms frameLms : List (ℤ × ℤ))
    (tris : List (ℕ × ℕ × ℕ)) (frame : Img) : Img :=
  tris.foldl
    (fun canvas t =>
      warp_triangles affineWarp maskOf staticImg canvas
        (lookupTri staticLms t) (lookupTri frameLms t))
    frame

/-- The sequence of `(tri1, tri2)` arguments the loop of lines 146-149
passes to `warp_triangles`: one call per index triple, in order — the
loop body has no conditional and no exception handler. -/
def warpFrameCalls (staticLms frameLms : List (ℤ × ℤ))
    (tris : List (ℕ × ℕ × ℕ)) : List (TriZ × TriZ) :=
  tris.map (fun t => (lookupTri staticLms t, lookupTri frameLms t))

/-! ### Video loop (`process_video`, lines 108-158) -/

/-- The `while True` loop of lines 135-154 over the frames remaining
after the first `cap.read()`: a frame whose landmark detection returns
`none` is skipped (`continue`, line 143); otherwise the rendered frame
(warp of lines 145-149 plus color correction of line 152, abstracted as
`render`) is written. -/
def processLoop {F L : Type} (getLms : F → Option L) (render : L → F → F) :
    List F → List F
  | [] => []
  | f :: fs =>
    match getLms f with
    | none => processLoop getLms render fs
    | some lms => render lms f :: processLoop getLms render fs

/-- `process_video` from the first `cap.read()` on (lines 125-157),
given that the static-image steps succeeded: `frames` is the sequence
of readable frames of the input video in order.  Returns `none` on the
"Error reading video file" path (no readable frame); otherwise the
writer resolution, taken from the first frame's shape (lines 131-132),
paired with the list of frames written by the loop — which starts at
the second readable frame, the first having been consumed by the
initial `cap.read()` of line 125.  `getLms` stands for the external
landmark detector `get_landmarks`. -/
def process_video {F L : Type} (shape : F → ℕ × ℕ) (getLms : F → Option L)
    (render : L → F → F) : List F → Option ((ℕ × ℕ) × List F)
  | [] => none
  | first :: rest => some (shape first, processLoop getLms render rest)

/-! ### Lemmas on the lookup-table scan -/

theorem scanGAux_ge (r : ℕ → ℚ) (c : ℚ) :
    ∀ fuel g, g ≤ scanGAux r c fuel g := by
  intro fuel
  induction fuel with
  | zero => intro g; simp [scanGAux]
  | succ n ih =>
    intro g
    simp only [scanGAux]
    split
    · exact le_trans (Nat.le_succ g) (ih (g + 1))
    · exact le_refl g

theorem scanGAux_le255 (r : ℕ → ℚ) (c : ℚ) :
    ∀ fuel g, g ≤ 255 → scanGAux r c fuel g ≤ 255 := by
  intro fuel
  induction fuel with
  | zero => intro g hg; simpa [scanGAux] using hg
  | succ n ih =>
    intro g hg
    simp only [scanGAux]
    split
    · next h => exact ih (g + 1) h.2
    · exact hg

theorem goalG_spec (r : ℕ → ℚ) (c : ℚ) :
    c ≤ r (goalG r c) ∨ goalG r c = 255 :=
  Nat.find_spec (p := fun g => c ≤ r g ∨ g = 255) ⟨255, Or.inr rfl⟩

theorem goalG_min (r : ℕ → ℚ) (c : ℚ) {g : ℕ} (h : g < goalG r c) :
    r g < c ∧ g ≠ 255 := by
  have := Nat.find_min (p := fun g => c ≤ r g ∨ g = 255) ⟨255, Or.inr rfl⟩ h
  exact ⟨lt_of_not_le (fun hle => this (Or.inl hle)), fun he => this (Or.inr he)⟩

theorem goalG_le (r : ℕ → ℚ) (c : ℚ) {g : ℕ} (h : c ≤ r g ∨ g = 255) :
    goalG r c ≤ g :=
  Nat.find_min' (p := fun g => c ≤ r g ∨ g = 255) ⟨255, Or.inr rfl⟩ h

theorem goalG_le255 (r : ℕ → ℚ) (c : ℚ) : goalG r c ≤ 255 :=
  goalG_le r c (Or.inr rfl)

theorem goalG_mono_c (r : ℕ → ℚ) {c c' : ℚ} (h : c ≤ c') :
    goalG r c ≤ goalG r c' := by
  apply goalG_le
  rcases goalG_spec r c' with h' | h'
  · exact Or.inl (le_trans h h')
  · exact Or.inr h'

theorem scanGAux_eq_max (r : ℕ → ℚ) (c : ℚ) (hr : Monotone r) :
    ∀ fuel g, g ≤ 255 → 255 - g ≤ fuel →
      scanGAux r c fuel g = max g (goalG r c) := by
  intro fuel
  induction fuel with
  | zero =>
    intro g hg hfuel
    have hg255 : g = 255 := by omega
    have : goalG r c ≤ g := goalG_le r c (Or.inr hg255)
    simp [scanGAux, Nat.max_eq_left this]
  | succ n ih =>
    intro g hg hfuel
    simp only [scanGAux]
    split
    · next h =>
      have hlt : g < goalG r c := by
        by_contra hcon
        push_neg at hcon
        rcases goalG_spec r c with hspec | hspec
        · exact absurd (le_trans hspec (hr hcon)) (not_le.mpr h.1)
        · omega
      rw [ih (g + 1) (by omega) (by omega)]
      omega
    · next h =>
      have hP : c ≤ r g ∨ g = 255 := by
        rcases not_and_or.mp h with h1 | h1
        · exact Or.inl (not_lt.mp h1)
        · exact Or.inr (by omega)
      exact (Nat.max_eq_left (goalG_le r c hP)).symm

theorem scanG_eq_max (r : ℕ → ℚ) (c : ℚ) (hr : Monotone r) {g : ℕ}
    (hg : g ≤ 255) : scanG r c g = max g (goalG r c) :=
  scanGAux_eq_max r c hr (255 - g) g hg (le_refl _)

theorem lutAux_le255 (r s : ℕ → ℚ) : ∀ i, lutAux r s i ≤ 255 := by
  intro i
  induction i with
  | zero => exact scanGAux_le255 r (s 0) _ 0 (by omega)
  | succ n ih => exact scanGAux_le255 r (s (n + 1)) _ _ ih

theorem lutAux_eq_goalG (r s : ℕ → ℚ) (hr : Monotone r) (hs : Monotone s) :
    ∀ i, lutAux r s i = goalG r (s i) := by
  intro i
  induction i with
  | zero =>
    show scanG r (s 0) 0 = _
    rw [scanG_eq_max r (s 0) hr (by omega)]
    exact Nat.max_eq_right (Nat.zero_le _)
  | succ n ih =>
    show scanG r (s (n + 1)) (lutAux r s n) = _
    rw [scanG_eq_max r (s (n + 1)) hr (lutAux_le255 r s n), ih]
    exact Nat.max_eq_right (goalG_mono_c r (hs (Nat.le_succ n)))

theorem lutAux_mono (r s : ℕ → ℚ) : Monotone (lutAux r s) := by
  apply monotone_nat_of_le_succ
  intro n
  exact scanGAux_ge r (s (n + 1)) _ (lutAux r s n)

/-! ### Lemmas on histograms and CDFs -/

theorem cdf_mono (h : ℕ → ℕ) : Monotone (cdf h) := by
  intro i j hij
  unfold cdf
  rcases Nat.eq_zero_or_pos (totalOf h) with h0 | hpos
  · simp [h0]
  · have hc : (0 : ℚ) < ((totalOf h : ℕ) : ℚ) := by exact_mod_cast hpos
    apply (div_le_div_iff_of_pos_right hc).mpr
    exact_mod_cast Finset.sum_le_sum_of_subset
      (Finset.range_subset.mpr (by omega))

theorem histOf_pos_of_mem {c : List ℕ} {v : ℕ} (hv : v ∈ c) :
    0 < histOf c v :=
  List.countP_pos_iff.mpr ⟨v, hv, by simp⟩

theorem totalOf_pos_of_mem {c : List ℕ} {v : ℕ} (hv : v ∈ c)
    (hv256 : v < 256) : 0 < totalOf (histOf c) :=
  lt_of_lt_of_le (histOf_pos_of_mem hv)
    (Finset.single_le_sum (fun _ _ => Nat.zero_le _)
      (Finset.mem_range.mpr hv256))

theorem cdf_strict_at (h : ℕ → ℕ) {g v : ℕ} (hgv : g < v)
    (hv : 0 < h v) (ht : 0 < totalOf h) : cdf h g < cdf h v := by
  unfold cdf
  have hc : (0 : ℚ) < ((totalOf h : ℕ) : ℚ) := by exact_mod_cast ht
  apply (div_lt_div_iff_of_pos_right hc).mpr
  have h1 : (Finset.range (g + 1)).sum h ≤ (Finset.range v).sum h :=
    Finset.sum_le_sum_of_subset (Finset.range_subset.mpr (by omega))
  have h2 : (Finset.range v).sum h < (Finset.range (v + 1)).sum h := by
    have hsucc : (Finset.range (v + 1)).sum h = (Finset.range v).sum h + h v :=
      Finset.sum_range_succ h v
    omega
  exact_mod_cast lt_of_le_of_lt h1 h2

/-- On a value that actually occurs in the channel, the self-matching
lookup table is the identity. -/
theorem lutAux_self_id {c : List ℕ} {v : ℕ} (hv : v ∈ c) (hv256 : v < 256) :
    lutAux (cdf (histOf c)) (cdf (histOf c)) v = v := by
  rw [lutAux_eq_goalG _ _ (cdf_mono _) (cdf_mono _)]
  apply le_antisymm
  · exact goalG_le _ _ (Or.inl (le_refl _))
  · by_contra hcon
    push_neg at hcon
    have hlt : cdf (histOf c) (goalG (cdf (histOf c)) (cdf (histOf c) v)) <
        cdf (histOf c) v :=
      cdf_strict_at _ hcon (histOf_pos_of_mem hv)
        (totalOf_pos_of_mem hv hv256)
    rcases goalG_spec (cdf (histOf c)) (cdf (histOf c) v) with hspec | hspec
    · exact absurd hspec (not_le.mpr hlt)
    · have : goalG (cdf (histOf c)) (cdf (histOf c) v) ≤ 255 :=
        goalG_le255 _ _
      omega

theorem matchChannel_self {c : List ℕ} (hc : ∀ v ∈ c, v < 256) :
    matchChannel c c = c := by
  unfold matchChannel
  conv_rhs => rw [← List.map_id c]
  apply List.map_congr_left
  intro v hv
  exact lutAux_self_id hv (hc v hv)

/-! ### Claims C3, C4, C5 : histogram matching -/

/-- **C3** (confirmed).  For every pair of channel histograms and every
source level `i ≤ 255`, the lookup table built by the resuming scan of
lines 93-98 maps `i` to the smallest reference level `g` with
`reference_cdf g ≥ source_cdf i`: every level below the table entry has
reference CDF strictly below `source_cdf i`, and the entry either
satisfies the CDF inequality or is the clamp value 255 because the scan
exhausted the table (no level up to 255 satisfies it). -/
theorem C3_lut_smallest_reference_level (hs hr : ℕ → ℕ) (i : ℕ)
    (_hi : i ≤ 255) :
    (∀ g, g < lutAux (cdf hr) (cdf hs) i → cdf hr g < cdf hs i) ∧
    (cdf hs i ≤ cdf hr (lutAux (cdf hr) (cdf hs) i) ∨
      (lutAux (cdf hr) (cdf hs) i = 255 ∧
        ∀ g, g ≤ 255 → cdf hr g < cdf hs i)) := by
  have hL := lutAux_eq_goalG (cdf hr) (cdf hs) (cdf_mono hr) (cdf_mono hs) i
  constructor
  · intro g hg
    rw [hL] at hg
    exact (goalG_min (cdf hr) (cdf hs i) hg).1
  · rcases goalG_spec (cdf hr) (cdf hs i) with hspec | hspec
    · left
      rw [hL]
      exact hspec
    · by_cases h255 : cdf hs i ≤ cdf hr 255
      · left
        rw [hL, hspec]
        exact h255
      · right
        refine ⟨by rw [hL, hspec], ?_⟩
        intro g hg
        rcases Nat.lt_or_ge g 255 with hg' | hg'
        · exact (goalG_min (cdf hr) (cdf hs i) (by omega)).1
        · have : g = 255 := by omega
          rw [this]
          exact lt_of_not_le h255

/-- Witness for C3 at a concrete input. -/
theorem C3_lut_smallest_reference_level_witness :
    (∀ g, g < lutAux (cdf (histOf [0])) (cdf (histOf [0])) 0 →
      cdf (histOf [0]) g < cdf (histOf [0]) 0) ∧
    (cdf (histOf [0]) 0 ≤
        cdf (histOf [0]) (lutAux (cdf (histOf [0])) (cdf (histOf [0])) 0) ∨
      (lutAux (cdf (histOf [0])) (cdf (histOf [0])) 0 = 255 ∧
        ∀ g, g ≤ 255 → cdf (histOf [0]) g < cdf (histOf [0]) 0)) :=
  C3_lut_smallest_reference_level (histOf [0]) (histOf [0]) 0 (by decide)

/-- **C4** (confirmed).  For every pair of channel histograms the
derived lookup table is non-decreasing in the source intensity level. -/
theorem C4_lut_monotone (hs hr : ℕ → ℕ) (i j : ℕ) (hij : i ≤ j) :
    lutAux (cdf hr) (cdf hs) i ≤ lutAux (cdf hr) (cdf hs) j :=
  lutAux_mono (cdf hr) (cdf hs) hij

/-- Witness for C4 at a concrete input. -/
theorem C4_lut_monotone_witness :
    lutAux (cdf (histOf [7])) (cdf (histOf [3])) 1 ≤
      lutAux (cdf (histOf [7])) (cdf (histOf [3])) 250 :=
  C4_lut_monotone (histOf [3]) (histOf [7]) 1 250 (by decide)

/-- **C5** (corrected), amended part.  Matching an image's histogram
against itself returns the image unchanged (every pixel value that
occurs in a channel is a fixed point of that channel's lookup table);
the table itself need not be the identity on levels that do not occur
(see the counterexample). -/
theorem C5_match_self_id (img : List (List ℕ))
    (hpix : ∀ ch ∈ img, ∀ v ∈ ch, v < 256) :
    match_histograms img img = img := by
  induction img with
  | nil => rfl
  | cons ch rest ih =>
    have h1 : matchChannel ch ch = ch :=
      matchChannel_self (hpix ch (by simp))
    have h2 : match_histograms rest rest = rest := by
      apply ih
      intro c hc v hv
      exact hpix c (by simp [hc]) v hv
    simpa [match_histograms] using
      And.intro h1 (by simpa [match_histograms] using h2)

/-- Witness for the amended C5 at a concrete image. -/
theorem C5_match_self_id_witness :
    match_histograms [[1]] [[1]] = [[1]] :=
  C5_match_self_id [[1]] (by decide)

set_option maxRecDepth 8000 in
/-- **C5** (corrected), counterexample.  For the single-pixel channel
`[1]` matched against itself, the lookup table maps level 2 to 1, so it
is not the identity (the image itself is still returned unchanged, but
levels that do not occur in the image need not be fixed points). -/
theorem C5_lut_not_identity_counterexample :
    lutAux (cdf (histOf [1])) (cdf (histOf [1])) 2 = 1 ∧ (1 : ℕ) ≠ 2 := by
  have ht : totalOf (histOf [1]) = 1 := by decide
  have h0 : cdf (histOf [1]) 0 = 0 := by
    have hs : (Finset.range 1).sum (histOf [1]) = 0 := by decide
    unfold cdf
    rw [hs, ht]
    norm_num
  have h1 : cdf (histOf [1]) 1 = 1 := by
    have hs : (Finset.range 2).sum (histOf [1]) = 1 := by decide
    unfold cdf
    rw [hs, ht]
    norm_num
  have h2 : cdf (histOf [1]) 2 = 1 := by
    have hs : (Finset.range 3).sum (histOf [1]) = 1 := by decide
    unfold cdf
    rw [hs, ht]
    norm_num
  refine ⟨?_, by decide⟩
  rw [lutAux_eq_goalG _ _ (cdf_mono _) (cdf_mono _) 2]
  apply le_antisymm
  · apply goalG_le
    left
    rw [h2, h1]
  · rcases Nat.eq_zero_or_pos (goalG (cdf (histOf [1])) (cdf (histOf [1]) 2))
      with hz | hp
    · exfalso
      rcases goalG_spec (cdf (histOf [1])) (cdf (histOf [1]) 2) with hsp | hsp
      · rw [hz, h2, h0] at hsp
        norm_num at hsp
      · rw [hz] at hsp
        exact absurd hsp (by norm_num)
    · exact hp

/-! ### Claims C1, C2 : the video loop -/

theorem processLoop_eq_filterMap {F L : Type} (getLms : F → Option L)
    (render : L → F → F) :
    ∀ fs : List F, processLoop getLms render fs =
      fs.filterMap (fun f => (getLms f).map (fun lms => render lms f)) := by
  intro fs
  induction fs with
  | nil => rfl
  | cons f fs ih =>
    simp only [processLoop, List.filterMap_cons]
    cases h : getLms f <;> simp [h, ih]

/-- **C2** (confirmed).  For every input video with at least one
readable frame, `process_video` uses the first readable frame only for
the writer resolution (its shape) and never renders or writes it: the
written frames are exactly the rendered landmark-carrying frames among
the remaining ones, so the per-frame loop begins at the second readable
frame. -/
theorem C2_first_frame_only_sizes_writer {F L : Type} (shape : F → ℕ × ℕ)
    (getLms : F → Option L) (render : L → F → F) (first : F)
    (rest : List F) :
    process_video shape getLms render (first :: rest) =
      some (shape first,
        rest.filterMap (fun f => (getLms f).map (fun lms => render lms f))) := by
  simp only [process_video, processLoop_eq_filterMap]

/-- **C1** (corrected), counterexample.  A synthetic 5-frame video in
which only frame 3 yields no landmarks produces an output of 3 frames
(frames 2, 4 and 5), not the 4 frames the claim states: the first
readable frame is consumed for the writer resolution and never
written. -/
theorem C1_five_frames_counterexample :
    process_video (fun _ => (4, 4))
        (fun f => if f = 3 then none else some ())
        (fun _ f => f) [1, 2, 3, 4, 5] = some ((4, 4), [2, 4, 5]) ∧
      ([2, 4, 5] : List ℕ).length ≠ 4 := by
  constructor
  · rfl
  · decide

/-- **C1** (corrected), amended.  Among the frames that enter the
processing loop — every readable frame after the first, which is
consumed to size the writer and never written — a frame in which the
detector finds no landmarks is entirely omitted and processing
continues; for the synthetic 5-frame video where only frame 3 yields no
landmarks, the output contains exactly the 3 rendered frames 2, 4, 5,
in original relative order, with frame 3 absent. -/
theorem C1_frame_drop_policy {F L : Type} (shape : F → ℕ × ℕ)
    (getLms : F → Option L) (render : L → F → F)
    (f1 f2 f3 f4 f5 : F) (l2 l4 l5 : L)
    (h2 : getLms f2 = some l2) (h3 : getLms f3 = none)
    (h4 : getLms f4 = some l4) (h5 : getLms f5 = some l5) :
    process_video shape getLms render [f1, f2, f3, f4, f5] =
      some (shape f1, [render l2 f2, render l4 f4, render l5 f5]) := by
  simp [process_video, processLoop, h2, h3, h4, h5]

/-- Witness for the amended C1 at a concrete input. -/
theorem C1_frame_drop_policy_witness :
    process_video (fun _ => (9, 9))
        (fun f => if f = 3 then none else some ())
        (fun _ f => f + 10) [1, 2, 3, 4, 5] = some ((9, 9), [12, 14, 15]) :=
  C1_frame_drop_policy (fun _ => (9, 9))
    (fun f => if f = 3 then none else some ()) (fun _ f => f + 10)
    1 2 3 4 5 () () () (by decide) (by decide) (by decide) (by decide)

/-! ### Claim C10 : no degenerate-triangle error, no skip policy -/

/-- **C10** (corrected), counterexample.  With three collinear static
landmarks, the per-frame loop still invokes the triangle compositor on
the zero-area triangle: the call sequence for a one-triangle
triangulation is exactly that degenerate pair, not the empty sequence a
skip policy would produce, and no error is signalled anywhere (the code
defines no `DegenerateTriangleError` and has no `try`/`except`). -/
theorem C10_degenerate_not_skipped_counterexample :
    area2 (lookupTri [(0, 0), (1, 0), (2, 0)] (0, 1, 2)) = 0 ∧
      warpFrameCalls [(0, 0), (1, 0), (2, 0)] [(0, 0), (0, 1), (0, 2)]
          [(0, 1, 2)] =
        [(((0, 0), (1, 0), (2, 0)), ((0, 0), (0, 1), (0, 2)))] := by
  constructor
  · decide
  · decide

/-- **C10** (corrected), amended.  The per-frame loop of lines 146-149
composites every triangle of the static triangulation unconditionally:
each index triple of the list, degenerate or not, contributes its
resolved `(source, destination)` triangle pair to the sequence of
`warp_triangles` calls, and the loop is total (no error is raised, so
nothing is skipped and nothing crashes — but equally no degenerate
triangle is ever detected). -/
theorem C10_every_triangle_composited (staticLms frameLms : List (ℤ × ℤ))
    (tris : List (ℕ × ℕ × ℕ)) (t : ℕ × ℕ × ℕ) (ht : t ∈ tris) :
    (lookupTri staticLms t, lookupTri frameLms t) ∈
      warpFrameCalls staticLms frameLms tris :=
  List.mem_map_of_mem _ ht

/-- Witness for the amended C10 at a concrete input. -/
theorem C10_every_triangle_composited_witness :
    (lookupTri [(0, 0), (1, 0), (2, 0)] (0, 1, 2),
      lookupTri [(3, 0), (1, 5), (2, 7)] (0, 1, 2)) ∈
      warpFrameCalls [(0, 0), (1, 0), (2, 0)] [(3, 0), (1, 5), (2, 7)]
        [(0, 1, 2)] :=
  C10_every_triangle_composited [(0, 0), (1, 0), (2, 0)]
    [(3, 0), (1, 5), (2, 7)] [(0, 1, 2)] (0, 1, 2) (by decide)

/-! ### Claim C6 : compositor locality -/

/-- **C6** (confirmed).  For every call to the triangle compositor:
pixels strictly outside the destination triangle's bounding rectangle
are unchanged; pixels inside the rectangle where the rasterized mask
is 0 are unchanged; and inside the rectangle the result is
`dest * (1 - mask) + warped_patch * mask` at the rectangle-local
coordinates. -/
theorem C6_compositor_locality
    (affineWarp : Img → List (ℤ × ℤ) → List (ℤ × ℤ) → ℤ × ℤ → Img)
    (maskOf : List (ℤ × ℤ) → ℤ × ℤ → Img)
    (img1 img2 : Img) (tri1 tri2 : TriZ) (y x : ℤ) :
    (¬ inRectZ (boundingRect tri2) y x →
      warp_triangles affineWarp maskOf img1 img2 tri1 tri2 y x = img2 y x) ∧
    (inRectZ (boundingRect tri2) y x →
      maskOf (localTri tri2 (boundingRect tri2))
          ((boundingRect tri2).w, (boundingRect tri2).h)
          (y - (boundingRect tri2).y) (x - (boundingRect tri2).x) = 0 →
      warp_triangles affineWarp maskOf img1 img2 tri1 tri2 y x = img2 y x) ∧
    (inRectZ (boundingRect tri2) y x →
      warp_triangles affineWarp maskOf img1 img2 tri1 tri2 y x =
        img2 y x *
            (1 - maskOf (localTri tri2 (boundingRect tri2))
              ((boundingRect tri2).w, (boundingRect tri2).h)
              (y - (boundingRect tri2).y) (x - (boundingRect tri2).x)) +
          affineWarp (subImg img1 (boundingRect tri1))
              (localTri tri1 (boundingRect tri1))
              (localTri tri2 (boundingRect tri2))
              ((boundingRect tri2).w, (boundingRect tri2).h)
              (y - (boundingRect tri2).y) (x - (boundingRect tri2).x) *
            maskOf (localTri tri2 (boundingRect tri2))
              ((boundingRect tri2).w, (boundingRect tri2).h)
              (y - (boundingRect tri2).y) (x - (boundingRect tri2).x)) := by
  refine ⟨?_, ?_, ?_⟩
  · intro hout
    simp only [warp_triangles]
    rw [if_neg hout]
  · intro hin hmask
    simp only [warp_triangles]
    rw [if_pos hin, hmask]
    ring
  · intro hin
    simp only [warp_triangles]
    rw [if_pos hin]

/-- Witness for C6 at a concrete input: a pixel strictly outside the
destination bounding rectangle, and a pixel inside it where the mask
oracle is 0, are both unchanged. -/
theorem C6_compositor_locality_witness :
    warp_triangles (fun _ _ _ _ _ _ => 0) (fun _ _ _ _ => 0)
        (fun _ _ => 3) (fun _ _ => 7)
        ((0, 0), (4, 0), (0, 4)) ((0, 0), (2, 0), (0, 2)) 9 9 = 7 ∧
      warp_triangles (fun _ _ _ _ _ _ => 0) (fun _ _ _ _ => 0)
        (fun _ _ => 3) (fun _ _ => 7)
        ((0, 0), (4, 0), (0, 4)) ((0, 0), (2, 0), (0, 2)) 1 1 = 7 :=
  ⟨(C6_compositor_locality (fun _ _ _ _ _ _ => 0) (fun _ _ _ _ => 0)
      (fun _ _ => 3) (fun _ _ => 7)
      ((0, 0), (4, 0), (0, 4)) ((0, 0), (2, 0), (0, 2)) 9 9).1
      (by decide),
    (C6_compositor_locality (fun _ _ _ _ _ _ => 0) (fun _ _ _ _ => 0)
      (fun _ _ => 3) (fun _ _ => 7)
      ((0, 0), (4, 0), (0, 4)) ((0, 0), (2, 0), (0, 2)) 1 1).2.1
      (by decide) rfl⟩

/-! ### Claims C7, C8, C9 : the triangulation builder -/

theorem exists_source_of_mem_gdt {rect : RectQ} {points : List (ℚ × ℚ)}
    {tlist : List TriRaw} {tr : ℕ × ℕ × ℕ}
    (h : tr ∈ get_delaunay_triangles rect points tlist) :
    ∃ t ∈ tlist,
      (ptInRect rect t.x1 t.y1 && ptInRect rect t.x2 t.y2 &&
        ptInRect rect t.x3 t.y3) = true ∧
      resolveTri points t = [tr.1, tr.2.1, tr.2.2] := by
  induction tlist with
  | nil => simp [get_delaunay_triangles] at h
  | cons t ts ih =>
    simp only [get_delaunay_triangles] at h
    by_cases hin : (ptInRect rect t.x1 t.y1 && ptInRect rect t.x2 t.y2 &&
        ptInRect rect t.x3 t.y3) = true
    · rw [if_pos hin] at h
      rcases hres : resolveTri points t with _ | ⟨a, _ | ⟨b, _ | ⟨c, _ | ⟨d, l⟩⟩⟩⟩ <;>
        rw [hres] at h
      · rcases ih h with ⟨t', ht', h1, h2⟩
        exact ⟨t', List.mem_cons_of_mem t ht', h1, h2⟩
      · rcases ih h with ⟨t', ht', h1, h2⟩
        exact ⟨t', List.mem_cons_of_mem t ht', h1, h2⟩
      · rcases ih h with ⟨t', ht', h1, h2⟩
        exact ⟨t', List.mem_cons_of_mem t ht', h1, h2⟩
      · rcases List.mem_cons.mp h with heq | hmem
        · subst heq
          exact ⟨t, List.mem_cons_self t ts, hin, hres⟩
        · rcases ih hmem with ⟨t', ht', h1, h2⟩
          exact ⟨t', List.mem_cons_of_mem t ht', h1, h2⟩
      · rcases ih h with ⟨t', ht', h1, h2⟩
        exact ⟨t', List.mem_cons_of_mem t ht', h1, h2⟩
    · rw [if_neg hin] at h
      rcases ih h with ⟨t', ht', h1, h2⟩
      exact ⟨t', List.mem_cons_of_mem t ht', h1, h2⟩

theorem resolveTri_eq_three {points : List (ℚ × ℚ)} {t : TriRaw}
    {a b c : ℕ} (h : resolveTri points t = [a, b, c]) :
    resolveIdx points t.x1 t.y1 = some a ∧
    resolveIdx points t.x2 t.y2 = some b ∧
    resolveIdx points t.x3 t.y3 = some c := by
  unfold resolveTri at h
  rcases h1 : resolveIdx points t.x1 t.y1 with _ | a' <;>
    rcases h2 : resolveIdx points t.x2 t.y2 with _ | b' <;>
      rcases h3 : resolveIdx points t.x3 t.y3 with _ | c' <;>
        simp [List.filterMap_cons, h1, h2, h3] at h <;>
          simp_all

theorem findMatch_lt {px py : ℚ} :
    ∀ (qs : List (ℚ × ℚ)) (k j : ℕ),
      findMatch px py qs k = some j → j < k + qs.length := by
  intro qs
  induction qs with
  | nil =>
    intro k j h
    simp [findMatch] at h
  | cons q qs ih =>
    intro k j h
    rw [findMatch] at h
    by_cases hc : |px - q.1| < 1 ∧ |py - q.2| < 1
    · rw [if_pos hc] at h
      have hkj : k = j := by simpa using h
      subst hkj
      simp only [List.length_cons]
      omega
    · rw [if_neg hc] at h
      have := ih (k + 1) j h
      simp only [List.length_cons]
      omega

theorem resolveIdx_lt {points : List (ℚ × ℚ)} {px py : ℚ} {k : ℕ}
    (h : resolveIdx points px py = some k) : k < points.length := by
  have := findMatch_lt points 0 k h
  omega

/-- **C7** (confirmed).  Every index triple returned by
`get_delaunay_triangles` comes from a raw triangle all three of whose
vertex coordinates lie inside the bounding region; a raw triangle with
any vertex outside the region never contributes a triple. -/
theorem C7_triples_from_inside_region (rect : RectQ)
    (points : List (ℚ × ℚ)) (tlist : List TriRaw) (tr : ℕ × ℕ × ℕ)
    (h : tr ∈ get_delaunay_triangles rect points tlist) :
    ∃ t ∈ tlist,
      ptInRect rect t.x1 t.y1 = true ∧ ptInRect rect t.x2 t.y2 = true ∧
      ptInRect rect t.x3 t.y3 = true ∧
      resolveTri points t = [tr.1, tr.2.1, tr.2.2] := by
  rcases exists_source_of_mem_gdt h with ⟨t, ht, hin, hres⟩
  rw [Bool.and_eq_true, Bool.and_eq_true] at hin
  exact ⟨t, ht, hin.1.1, hin.1.2, hin.2, hres⟩

/-- Witness for C7 at a concrete input. -/
theorem C7_triples_from_inside_region_witness :
    ∃ t ∈ [(⟨0, 0, 5, 0, 0, 5⟩ : TriRaw)],
      ptInRect ⟨0, 0, 10, 10⟩ t.x1 t.y1 = true ∧
      ptInRect ⟨0, 0, 10, 10⟩ t.x2 t.y2 = true ∧
      ptInRect ⟨0, 0, 10, 10⟩ t.x3 t.y3 = true ∧
      resolveTri [(0, 0), (5, 0), (0, 5)] t =
        [((0 : ℕ), (1 : ℕ), (2 : ℕ)).1, (0, 1, 2).2.1, (0, 1, 2).2.2] :=
  C7_triples_from_inside_region ⟨0, 0, 10, 10⟩ [(0, 0), (5, 0), (0, 5)]
    [⟨0, 0, 5, 0, 0, 5⟩] (0, 1, 2)
    (by norm_num [get_delaunay_triangles, resolveTri, resolveIdx, findMatch,
      ptInRect, List.filterMap_cons, List.filterMap_nil])

/-- **C8** (corrected), counterexample.  A raw triangle two of whose
vertices resolve to the same landmark index passes the `len(ind) == 3`
check of line 68, so the output triple `(0, 0, 1)` does not consist of
three distinct indices — the code checks only that each vertex resolved
to some index, not distinctness. -/
theorem C8_repeated_index_counterexample :
    get_delaunay_triangles ⟨0, 0, 10, 10⟩ [(0, 0), (5, 0), (0, 5)]
        [⟨0, 0, 0, 0, 5, 0⟩] = [(0, 0, 1)] ∧
      ¬ List.Nodup [(0 : ℕ), 0, 1] := by
  constructor
  · norm_num [get_delaunay_triangles, resolveTri, resolveIdx, findMatch,
      ptInRect, List.filterMap_cons, List.filterMap_nil]
  · decide

/-- **C8** (corrected), amended.  Every triple in the output comes from
a raw triangle each of whose three vertices resolved to some landmark
index (the `ind` list reached length 3); the three indices are not
required to be distinct, and a candidate with an unresolved vertex is
dropped. -/
theorem C8_all_vertices_resolved (rect : RectQ) (points : List (ℚ × ℚ))
    (tlist : List TriRaw) (tr : ℕ × ℕ × ℕ)
    (h : tr ∈ get_delaunay_triangles rect points tlist) :
    ∃ t ∈ tlist, ∃ a b c : ℕ,
      resolveIdx points t.x1 t.y1 = some a ∧
      resolveIdx points t.x2 t.y2 = some b ∧
      resolveIdx points t.x3 t.y3 = some c ∧ tr = (a, b, c) := by
  rcases exists_source_of_mem_gdt h with ⟨t, ht, _, hres⟩
  rcases resolveTri_eq_three hres with ⟨h1, h2, h3⟩
  exact ⟨t, ht, tr.1, tr.2.1, tr.2.2, h1, h2, h3, rfl⟩

/-- Witness for the amended C8 at a concrete input. -/
theorem C8_all_vertices_resolved_witness :
    ∃ t ∈ [(⟨0, 0, 0, 0, 5, 0⟩ : TriRaw)], ∃ a b c : ℕ,
      resolveIdx [(0, 0), (5, 0), (0, 5)] t.x1 t.y1 = some a ∧
      resolveIdx [(0, 0), (5, 0), (0, 5)] t.x2 t.y2 = some b ∧
      resolveIdx [(0, 0), (5, 0), (0, 5)] t.x3 t.y3 = some c ∧
      ((0 : ℕ), (0 : ℕ), (1 : ℕ)) = (a, b, c) :=
  C8_all_vertices_resolved ⟨0, 0, 10, 10⟩ [(0, 0), (5, 0), (0, 5)]
    [⟨0, 0, 0, 0, 5, 0⟩] (0, 0, 1)
    (by norm_num [get_delaunay_triangles, resolveTri, resolveIdx, findMatch,
      ptInRect, List.filterMap_cons, List.filterMap_nil])

/-- **C9** (corrected), counterexample.  With a single input point —
fewer than the 3 entries at which the claim says an
`InsufficientPointsError` is raised — `get_delaunay_triangles` returns
normally with the empty list: the code performs no input validation and
defines no error type. -/
theorem C9_single_point_no_error_counterexample :
    get_delaunay_triangles ⟨0, 0, 10, 10⟩ [(0, 0)]
      [⟨0, 0, 1, 0, 0, 1⟩] = [] := by
  norm_num [get_delaunay_triangles, resolveTri, resolveIdx, findMatch,
    ptInRect, List.filterMap_cons, List.filterMap_nil]

/-- **C9** (corrected), amended.  `get_delaunay_triangles` never
fails: for every bounding region, point list (of any length, including
fewer than 3 or collinear points) and raw triangle list it returns a
list of triples, and every index in every returned triple is a valid
position in the point list. -/
theorem C9_total_with_valid_indices (rect : RectQ)
    (points : List (ℚ × ℚ)) (tlist : List TriRaw) (tr : ℕ × ℕ × ℕ)
    (h : tr ∈ get_delaunay_triangles rect points tlist) :
    tr.1 < points.length ∧ tr.2.1 < points.length ∧
      tr.2.2 < points.length := by
  rcases exists_source_of_mem_gdt h with ⟨t, _, _, hres⟩
  rcases resolveTri_eq_three hres with ⟨h1, h2, h3⟩
  exact ⟨resolveIdx_lt h1, resolveIdx_lt h2, resolveIdx_lt h3⟩

/-- Witness for the amended C9 at a concrete input. -/
theorem C9_total_with_valid_indices_witness :
    ((0 : ℕ), (1 : ℕ), (2 : ℕ)).1 < ([(0, 0), (5, 0), (0, 5)] :
        List (ℚ × ℚ)).length ∧
      ((0 : ℕ), (1 : ℕ), (2 : ℕ)).2.1 < ([(0, 0), (5, 0), (0, 5)] :
        List (ℚ × ℚ)).length ∧
      ((0 : ℕ), (1 : ℕ), (2 : ℕ)).2.2 < ([(0, 0), (5, 0), (0, 5)] :
        List (ℚ × ℚ)).length :=
  C9_total_with_valid_indices ⟨0, 0, 10, 10⟩ [(0, 0), (5, 0), (0, 5)]
    [⟨0, 0, 5, 0, 0, 5⟩] (0, 1, 2)
    (by norm_num [get_delaunay_triangles, resolveTri, resolveIdx, findMatch,
      ptInRect, List.filterMap_cons, List.filterMap_nil])

end FaceSwap
